import Mathlib

/-!
Shallow embedding of tetra's `ImageData` pixel-buffer engine
(`src/graphics/image_data.rs`), together with the pieces of the `Color` and
`TextureFormat` API that it uses. Byte buffers are `List Nat` (each entry the
value of one `u8`), machine `as usize` casts are taken modulo `2 ^ 64`,
Rust panics (assertion failures, `unimplemented!`, slice-bound violations)
are modelled as `Option.none`, and the fallible constructor returns `Except`.
-/

/-- The number of values of `usize` (64-bit platform). -/
def U64 : Nat := 2 ^ 64

/-- Rust `as usize` applied to a signed integer: two's-complement wrap into
`[0, 2 ^ 64)`. -/
def usizeOfInt (i : Int) : Nat := (i % (U64 : Int)).toNat

/-- A `usize` product: wraps modulo `2 ^ 64` as in release builds (a debug
build would panic at exactly the inputs where this wraps). -/
def usizeMul (a b : Nat) : Nat := a * b % U64

/-- The `TextureFormat` enum from the repository's graphics module
(the four variants used by `ImageData`). -/
inductive TextureFormat where
  | Rgba8
  | R8
  | Rg8
  | Rgba16F
deriving DecidableEq, Repr

/-- Modelled from the spec: `TextureFormat::stride` (bytes per pixel) is not
under `src/`; §3 of the spec fixes it as `R8 -> 1`, `RG8 -> 2`, `RGBA8 -> 4`,
`RGBA16F -> 8`, a pure function of the variant. -/
def TextureFormat.stride : TextureFormat → Nat
  | .Rgba8 => 4
  | .R8 => 1
  | .Rg8 => 2
  | .Rgba16F => 8

/-- Modelled from the spec: the logical four-channel color (`Color`, not under
`src/`). §3 describes it as a four-channel (red, green, blue, alpha) value,
"each channel an 8-bit quantity in this buffer's context". Channels are stored
here as the byte values `0..=255`. -/
structure Color where
  r : Nat
  g : Nat
  b : Nat
  a : Nat
deriving DecidableEq, Repr

/-- Modelled from the spec: `Color::rgba8`, building a logical color from four
byte values (reduction mod 256 keeps the model total; real inputs are `u8`). -/
def Color.rgba8 (r g b a : Nat) : Color := ⟨r % 256, g % 256, b % 256, a % 256⟩

/-- Modelled from the spec: the `Color -> [u8; 4]` conversion used by
`set_pixel_color` and `transform` (`let data: [u8; 4] = color.into()`); each
channel flattens back to one byte. -/
def Color.toBytes (c : Color) : List Nat := [c.r % 256, c.g % 256, c.b % 256, c.a % 256]

/-- Modelled from the spec: `Color::to_premultiplied` (not under `src/`).
§4.2 defines it as `color -> (red*alpha/255, green*alpha/255, blue*alpha/255,
alpha)` with integer multiply-then-divide-by-255; the division is truncating,
as pinned by the reference table in §8 of the spec and by the repository's
`premultiply_rgba8` test (e.g. `0x66 * 0x66 / 255 = 40 = 0x28`). -/
def Color.to_premultiplied (c : Color) : Color :=
  ⟨c.r * c.a / 255, c.g * c.a / 255, c.b * c.a / 255, c.a⟩

/-- `Vec2<i32>` positions. -/
structure Vec2 where
  x : Int
  y : Int
deriving DecidableEq, Repr

/-- `Rectangle<i32>` regions (x, y, width, height). -/
structure Rectangle where
  x : Int
  y : Int
  width : Int
  height : Int
deriving DecidableEq, Repr

/-- The error variant of `TetraError` used by `ImageData::from_data`
(`TetraError::NotEnoughData { expected, actual }`). -/
inductive TetraError where
  | NotEnoughData (expected : Nat) (actual : Nat)
deriving DecidableEq, Repr

/-- `ImageData`: a flat byte buffer plus width, height and format
(`src/graphics/image_data.rs`, lines 32-38). -/
structure ImageData where
  data : List Nat
  width : Nat
  height : Nat
  format : TextureFormat
deriving DecidableEq, Repr

/-- Effectful map over a list in the `Option` monad, written out as the
straightforward recursion (the first `none` aborts, modelling a panic inside
a Rust `for` loop). -/
def optionMapM (f : α → Option β) : List α → Option (List β)
  | [] => some []
  | a :: as => do
    let b ← f a
    let bs ← optionMapM f as
    pure (b :: bs)

/-- Splice `bs` into `data` starting at byte index `idx`, modelling
`copy_from_slice` on the sub-slice `data[idx .. idx + bs.length]`. -/
def writeBytes (data : List Nat) (idx : Nat) (bs : List Nat) : List Nat :=
  data.take idx ++ bs ++ data.drop (idx + bs.length)

/-- Modelled from the spec: the successful result of the external image codec
(§6): a decoded width and height together with the image's 4-channel 8-bit
(`RGBA8`) pixel rows, `width * height * 4` bytes in row-major order. The
codec itself (`fs::read_to_image`, `image::load_from_memory`,
`into_rgba8()`) is not under `src/`. -/
structure DecodedImage where
  width : Nat
  height : Nat
  raw : List Nat
  size_eq : raw.length = width * height * 4

/-- `ImageData::new` (lines 49-63), success path: decode the file through the
external codec and wrap the decoded `RGBA8` pixels; the codec's failure cases
surface errors without constructing a buffer. -/
def ImageData.new (image : DecodedImage) : ImageData :=
  { data := image.raw, width := image.width, height := image.height,
    format := .Rgba8 }

/-- `ImageData::from_encoded` (lines 122-136), success path: decode from
memory through magic-byte sniffing and wrap the decoded `RGBA8` pixels. -/
def ImageData.from_encoded (image : DecodedImage) : ImageData :=
  { data := image.raw, width := image.width, height := image.height,
    format := .Rgba8 }

/-- `ImageData::from_data` (lines 79-107): computes the `usize` product
`expected = width * height * format.stride()` (wrapping, release-profile
semantics; a debug build panics where it wraps), errors with `NotEnoughData`
when fewer bytes were supplied, otherwise truncates to `expected`. -/
def ImageData.from_data (width height : Int) (format : TextureFormat)
    (data : List Nat) : Except TetraError ImageData :=
  let w := usizeOfInt width
  let h := usizeOfInt height
  let expected := usizeMul (usizeMul w h) format.stride
  let actual := data.length
  if actual < expected then
    .error (.NotEnoughData expected actual)
  else
    .ok { data := data.take expected, width := w, height := h, format := format }

/-- One iteration of the `region` scanline loop (lines 200-205): the bytes
`data[x_start .. x_start + region_width * stride]` of row `scan_y`, where
`x_start = (region_x + scan_y * width) * stride`; a slice-bound panic is
`none`. -/
def regionRow (img : ImageData) (region_x region_width scan_y : Nat) :
    Option (List Nat) :=
  let s := img.format.stride
  let x_start := (region_x + scan_y * img.width) * s
  let x_end := x_start + region_width * s
  if x_end ≤ img.data.length then
    pure ((img.data.drop x_start).take (region_width * s))
  else
    none

/-- `ImageData::region` (lines 181-213): asserts the rectangle lies inside the
image, then copies one scanline per `scan_y` in
`region_y .. region_y + region_height` into a fresh buffer. The assertion
failure is `none`. -/
def ImageData.region (img : ImageData) (region : Rectangle) : Option ImageData :=
  if 0 ≤ region.x ∧ 0 ≤ region.y ∧
      region.x + region.width ≤ (img.width : Int) ∧
      region.y + region.height ≤ (img.height : Int) then
    let region_x := usizeOfInt region.x
    let region_y := usizeOfInt region.y
    let region_width := usizeOfInt region.width
    let region_height := usizeOfInt region.height
    do
      let rows ← optionMapM (regionRow img region_x region_width)
        (List.range' region_y region_height)
      pure { data := rows.flatten, width := region_width,
             height := region_height, format := img.format }
  else
    none

/-- `ImageData::get_pixel_color` (lines 234-254): flattened index arithmetic,
the assert `idx + stride - 1 < data.len()`, then the per-format decode.
`unimplemented!()` for `Rgba16F` is `none`. -/
def ImageData.get_pixel_color (img : ImageData) (position : Vec2) : Option Color :=
  let pixel_idx := usizeOfInt position.x + usizeOfInt position.y * img.width
  let idx := pixel_idx * img.format.stride
  if idx + img.format.stride - 1 < img.data.length then
    match img.format with
    | .Rgba8 => some (Color.rgba8 (img.data.getD idx 0) (img.data.getD (idx + 1) 0)
        (img.data.getD (idx + 2) 0) (img.data.getD (idx + 3) 0))
    | .R8 => some (Color.rgba8 (img.data.getD idx 0) 0 0 255)
    | .Rg8 => some (Color.rgba8 (img.data.getD idx 0) (img.data.getD (idx + 1) 0) 0 255)
    | .Rgba16F => none
  else
    none

/-- `ImageData::set_pixel_color` (lines 265-288): same index arithmetic and
assert, then writes only the bytes the format stores (4, 1 or 2 of the
`[u8; 4]` encoding of the color). -/
def ImageData.set_pixel_color (img : ImageData) (position : Vec2) (color : Color) :
    Option ImageData :=
  let pixel_idx := usizeOfInt position.x + usizeOfInt position.y * img.width
  let idx := pixel_idx * img.format.stride
  if idx + img.format.stride - 1 < img.data.length then
    let bs := color.toBytes
    match img.format with
    | .Rgba8 => some { img with data := writeBytes img.data idx bs }
    | .R8 => some { img with data := writeBytes img.data idx (bs.take 1) }
    | .Rg8 => some { img with data := writeBytes img.data idx (bs.take 2) }
    | .Rgba16F => none
  else
    none

/-- The color `transform` presents to the callback for one stride-sized chunk:
`Color::rgba8(data[0], data.get(1).unwrap_or(0), data.get(2).unwrap_or(0),
data.get(3).unwrap_or(255))` (lines 306-311). -/
def decodeChunk (chunk : List Nat) : Color :=
  Color.rgba8 (chunk.getD 0 0) (chunk.getD 1 0) (chunk.getD 2 0) (chunk.getD 3 255)

/-- The body of the `transform` loop (lines 301-327) for chunk index `i`:
chunk `i` of `chunks_exact_mut(stride)` is the bytes
`[i * stride, (i+1) * stride)`; the pixel position is `(i % width, i / width)`;
the chunk is rewritten from the callback output (whole chunk for `Rgba8`,
first byte for `R8`, first two bytes for `Rg8`), and the `unimplemented!()`
arm for `Rgba16F` is `none`. -/
def transformBody (img : ImageData) (func : Vec2 → Color → Color) (i : Nat) :
    Option (List Nat) :=
  let s := img.format.stride
  let chunk := (img.data.drop (i * s)).take s
  let color := decodeChunk chunk
  let output := (func ⟨((i % img.width : Nat) : Int), ((i / img.width : Nat) : Int)⟩
    color).toBytes
  match img.format with
  | .Rgba8 => some output
  | .R8 => some (output.take 1)
  | .Rg8 => some (output.take 2)
  | .Rgba16F => none

/-- `ImageData::transform` (lines 297-328): iterates the
`data.len() / stride` exact chunks of the buffer, rewriting each in place via
`transformBody`. Any trailing bytes that do not fill a chunk are left
untouched, as with `chunks_exact_mut`. -/
def ImageData.transform (img : ImageData) (func : Vec2 → Color → Color) :
    Option ImageData :=
  let s := img.format.stride
  let n := img.data.length / s
  do
    let newChunks ← optionMapM (transformBody img func) (List.range n)
    pure { img with data := newChunks.flatten ++ img.data.drop (n * s) }

/-- `ImageData::premultiply` (lines 337-339): `transform` with
`color.to_premultiplied()`. -/
def ImageData.premultiply (img : ImageData) : Option ImageData :=
  img.transform (fun _ color => color.to_premultiplied)

/-- The buffer-size invariant from the spec:
`data.length == width * height * format.stride()`. -/
def ImageData.sizeInvariant (img : ImageData) : Prop :=
  img.data.length = img.width * img.height * img.format.stride

instance (img : ImageData) : Decidable img.sizeInvariant := by
  unfold ImageData.sizeInvariant; infer_instance

/-- The per-format truncation `transform` and `set_pixel_color` apply to the
4-byte color encoding before writing it back: the whole array for `Rgba8`,
its first byte for `R8`, its first two bytes for `Rg8`. -/
def encodeTrim (format : TextureFormat) (output : List Nat) : List Nat :=
  match format with
  | .Rgba8 => output
  | .R8 => output.take 1
  | .Rg8 => output.take 2
  | .Rgba16F => []

/-- The channel normalization §4.1 of the spec attributes to a `set_pixel`
followed by `get_pixel`: channels the format does not store come back as 0
(missing colors) or 255 (missing alpha). -/
def normalizeColor (format : TextureFormat) (c : Color) : Color :=
  match format with
  | .Rgba8 => c
  | .R8 => ⟨c.r, 0, 0, 255⟩
  | .Rg8 => ⟨c.r, c.g, 0, 255⟩
  | .Rgba16F => c

/-- Every format has positive stride. -/
theorem TextureFormat.stride_pos (format : TextureFormat) : 0 < format.stride := by
  cases format <;> decide

theorem optionMapM_eq_map {f : α → Option β} {g : α → β} {l : List α}
    (h : ∀ a ∈ l, f a = some (g a)) : optionMapM f l = some (l.map g) := by
  induction l with
  | nil => rfl
  | cons a as ih =>
    simp only [optionMapM, h a (List.mem_cons_self a as),
      ih (fun x hx => h x (List.mem_cons_of_mem a hx)), List.map_cons]
    rfl

theorem optionMapM_length {f : α → Option β} {l : List α} {l' : List β}
    (h : optionMapM f l = some l') : l'.length = l.length := by
  induction l generalizing l' with
  | nil => simp only [optionMapM] at h; cases h; rfl
  | cons a as ih =>
    simp only [optionMapM, Option.bind_eq_bind, Option.bind_eq_some] at h
    obtain ⟨b, _, bs, hbs, hl'⟩ := h
    cases hl'
    simp [ih hbs]

theorem optionMapM_mem {f : α → Option β} {l : List α} {l' : List β}
    (h : optionMapM f l = some l') : ∀ b ∈ l', ∃ a ∈ l, f a = some b := by
  induction l generalizing l' with
  | nil => simp only [optionMapM] at h; cases h; simp
  | cons a as ih =>
    simp only [optionMapM, Option.bind_eq_bind, Option.bind_eq_some] at h
    obtain ⟨b, hb, bs, hbs, hl'⟩ := h
    cases hl'
    intro x hx
    rcases List.mem_cons.1 hx with hx | hx
    · exact ⟨a, List.mem_cons_self a as, hx ▸ hb⟩
    · obtain ⟨a', ha', hfa'⟩ := ih hbs x hx
      exact ⟨a', List.mem_cons_of_mem a ha', hfa'⟩

theorem writeBytes_length {data bs : List Nat} {idx : Nat}
    (h : idx + bs.length ≤ data.length) :
    (writeBytes data idx bs).length = data.length := by
  unfold writeBytes
  simp only [List.length_append, List.length_take, List.length_drop]
  omega

theorem writeBytes_take {data bs : List Nat} {idx : Nat} (h : idx ≤ data.length) :
    (writeBytes data idx bs).take idx = data.take idx := by
  unfold writeBytes
  rw [List.take_append_of_le_length (by simp; omega)]
  simp [List.take_take, Nat.min_self, h]

theorem writeBytes_drop {data bs : List Nat} {idx : Nat}
    (h : idx ≤ data.length) :
    (writeBytes data idx bs).drop (idx + bs.length) = data.drop (idx + bs.length) := by
  unfold writeBytes
  rw [List.append_assoc, List.drop_append_eq_append_drop]
  simp only [List.length_take, Nat.min_eq_left h]
  rw [List.drop_append_eq_append_drop]
  have h1 : idx + bs.length - idx = bs.length := by omega
  rw [h1, List.drop_length, List.drop_eq_nil_of_le (by simp [Nat.min_eq_left h])]
  simp

theorem writeBytes_getD {data bs : List Nat} {idx j : Nat}
    (h : idx ≤ data.length) (hj : j < bs.length) :
    (writeBytes data idx bs).getD (idx + j) 0 = bs.getD j 0 := by
  unfold writeBytes
  rw [List.append_assoc, List.getD_eq_getElem?_getD,
    List.getElem?_append_right (by simp [Nat.min_eq_left h])]
  simp only [List.length_take, Nat.min_eq_left h]
  rw [List.getElem?_append_left (by omega)]
  have h1 : idx + j - idx = j := by omega
  rw [h1, List.getD_eq_getElem?_getD]

theorem usizeOfInt_natCast {n : Nat} (h : n < U64) : usizeOfInt (n : Int) = n := by
  unfold usizeOfInt
  rw [Int.emod_eq_of_lt (by positivity) (by exact_mod_cast h)]
  simp

theorem usizeOfInt_toNat {i : Int} (h0 : 0 ≤ i) (h : i < (U64 : Int)) :
    usizeOfInt i = i.toNat := by
  unfold usizeOfInt
  rw [Int.emod_eq_of_lt h0 h]

theorem usizeMul_stride_eq {w h : Nat} (format : TextureFormat)
    (hlt : w * h * format.stride < U64) :
    usizeMul (usizeMul w h) format.stride = w * h * format.stride := by
  have hs := TextureFormat.stride_pos format
  have h1 : w * h < U64 :=
    lt_of_le_of_lt (Nat.le_mul_of_pos_right _ hs) hlt
  unfold usizeMul
  rw [Nat.mod_eq_of_lt h1, Nat.mod_eq_of_lt hlt]

/-- Claim C4: `from_data` computes `expected` as the `usize` product
`width * height * format.stride()` (wrapping, as release builds do); it fails
with `NotEnoughData` carrying that `expected` and the actual length whenever
fewer bytes are supplied, and succeeds with exactly the first `expected`
bytes whenever at least `expected` bytes are supplied. -/
theorem c4_from_data_boundary (width height : Int) (format : TextureFormat)
    (data : List Nat) :
    (data.length < usizeMul (usizeMul (usizeOfInt width) (usizeOfInt height))
        format.stride →
      ImageData.from_data width height format data =
        .error (.NotEnoughData
          (usizeMul (usizeMul (usizeOfInt width) (usizeOfInt height))
            format.stride) data.length)) ∧
    (usizeMul (usizeMul (usizeOfInt width) (usizeOfInt height))
        format.stride ≤ data.length →
      ImageData.from_data width height format data =
        .ok { data := data.take (usizeMul (usizeMul (usizeOfInt width)
                (usizeOfInt height)) format.stride),
              width := usizeOfInt width, height := usizeOfInt height,
              format := format }) := by
  constructor <;> intro h <;> simp [ImageData.from_data, h, Nat.not_lt.mpr h]

/-- Witness for C4 at the boundary from the spec: 15 bytes for a 2x2 `Rgba8`
image error with `expected = 16, actual = 15`; 16 bytes succeed. -/
theorem c4_from_data_boundary_witness :
    ImageData.from_data 2 2 .Rgba8 (List.replicate 15 0) =
      .error (.NotEnoughData 16 15) ∧
    ImageData.from_data 2 2 .Rgba8 (List.replicate 16 7) =
      .ok { data := List.replicate 16 7, width := 2, height := 2, format := .Rgba8 } := by
  have h1 := (c4_from_data_boundary 2 2 .Rgba8 (List.replicate 15 0)).1
  have h2 := (c4_from_data_boundary 2 2 .Rgba8 (List.replicate 16 7)).2
  have e : usizeMul (usizeMul (usizeOfInt 2) (usizeOfInt 2))
      (TextureFormat.stride .Rgba8) = 16 := by decide
  have e2 : usizeOfInt 2 = 2 := by decide
  rw [e] at h1 h2
  refine ⟨by simpa using h1 (by simp), ?_⟩
  have h3 := h2 (by simp)
  rw [e2] at h3
  simpa using h3

/-- Claim C10: `from_data` with a zero width or height (other dimension
non-negative) succeeds for any supplied byte sequence, returning a buffer
with the given dimensions and empty data. -/
theorem c10_from_data_zero_dimension (width height : Int) (format : TextureFormat)
    (data : List Nat) (hw : 0 ≤ width) (hh : 0 ≤ height)
    (h0 : width = 0 ∨ height = 0) :
    ImageData.from_data width height format data =
      .ok { data := [], width := usizeOfInt width, height := usizeOfInt height,
            format := format } := by
  have hz : usizeOfInt 0 = 0 := by decide
  have hzero : usizeMul (usizeMul (usizeOfInt width) (usizeOfInt height))
      format.stride = 0 := by
    rcases h0 with h | h <;> subst h <;> simp [usizeMul, hz]
  simp [ImageData.from_data, hzero]

/-- Witness for C10: a 0x2 `R8` request with two supplied bytes succeeds and
discards them. -/
theorem c10_from_data_zero_dimension_witness :
    ImageData.from_data 0 2 .R8 [5, 6] =
      .ok { data := [], width := 0, height := 2, format := .R8 } := by
  have h := c10_from_data_zero_dimension 0 2 .R8 [5, 6] (by norm_num) (by norm_num)
    (Or.inl rfl)
  rw [show (0 : Int) = ((0 : Nat) : Int) by norm_num,
    show (2 : Int) = ((2 : Nat) : Int) by norm_num,
    usizeOfInt_natCast (by norm_num [U64]), usizeOfInt_natCast (by norm_num [U64])] at h
  exact h

/-- Claim C5: get/set/region are documented to panic on any out-of-bounds
coordinates, but `get_pixel_color`/`set_pixel_color` only check the flattened
byte index against the buffer length. On the 2x2 `Rgba8` test buffer the
out-of-bounds position `(2, 0)` passes the check: `get_pixel_color` returns
the color stored at `(0, 1)` and `set_pixel_color` overwrites the bytes of
pixel `(0, 1)` instead of panicking. -/
theorem c5_oob_pixel_access_not_fatal :
    ImageData.get_pixel_color
      { data := [0x00, 0x01, 0x02, 0x03, 0x04, 0x05, 0x06, 0x07,
                 0x08, 0x09, 0x0A, 0x0B, 0x0C, 0x0D, 0x0E, 0x0F],
        width := 2, height := 2, format := .Rgba8 } ⟨2, 0⟩ =
      some (Color.rgba8 0x08 0x09 0x0A 0x0B) ∧
    ImageData.set_pixel_color
      { data := [0x00, 0x01, 0x02, 0x03, 0x04, 0x05, 0x06, 0x07,
                 0x08, 0x09, 0x0A, 0x0B, 0x0C, 0x0D, 0x0E, 0x0F],
        width := 2, height := 2, format := .Rgba8 } ⟨2, 0⟩ (Color.rgba8 1 2 3 4) =
      some { data := [0x00, 0x01, 0x02, 0x03, 0x04, 0x05, 0x06, 0x07,
                      0x01, 0x02, 0x03, 0x04, 0x0C, 0x0D, 0x0E, 0x0F],
             width := 2, height := 2, format := .Rgba8 } := by
  constructor <;> rfl

/-- Auxiliary for C9: with at least one full 8-byte chunk present, the first
`transform` iteration on an `Rgba16F` buffer hits the unimplemented arm. -/
theorem transform_rgba16f_none (img : ImageData) (f : Vec2 → Color → Color)
    (hfmt : img.format = .Rgba16F) (hlen : 8 ≤ img.data.length) :
    img.transform f = none := by
  obtain ⟨m, hm⟩ : ∃ m, img.data.length / 8 = m + 1 :=
    ⟨img.data.length / 8 - 1, by
      have : 1 ≤ img.data.length / 8 := (Nat.one_le_div_iff (by norm_num)).2 hlen
      omega⟩
  unfold ImageData.transform
  simp only [hfmt, TextureFormat.stride, hm, List.range_succ_eq_map]
  simp [optionMapM, transformBody, hfmt]

/-- Claim C9 (amended): on an `Rgba16F` buffer, `get_pixel_color` and
`set_pixel_color` always fail fatally, and `transform` and `premultiply` fail
fatally whenever the buffer holds at least one pixel (8 bytes); a zero-pixel
`Rgba16F` buffer makes `transform`/`premultiply` a vacuous no-op instead. -/
theorem c9_rgba16f_operations_fatal (img : ImageData) (p : Vec2) (c : Color)
    (f : Vec2 → Color → Color) (hfmt : img.format = .Rgba16F) :
    img.get_pixel_color p = none ∧ img.set_pixel_color p c = none ∧
    (8 ≤ img.data.length → img.transform f = none ∧ img.premultiply = none) := by
  refine ⟨?_, ?_, fun hlen => ⟨transform_rgba16f_none img f hfmt hlen,
    transform_rgba16f_none img _ hfmt hlen⟩⟩
  · unfold ImageData.get_pixel_color
    simp only [hfmt]
    split <;> rfl
  · unfold ImageData.set_pixel_color
    simp only [hfmt]
    split <;> rfl

/-- Witness for C9 on a concrete 1x1 `Rgba16F` buffer. -/
theorem c9_rgba16f_operations_fatal_witness :
    ImageData.get_pixel_color ⟨List.replicate 8 0, 1, 1, .Rgba16F⟩ ⟨0, 0⟩ = none ∧
    ImageData.set_pixel_color ⟨List.replicate 8 0, 1, 1, .Rgba16F⟩ ⟨0, 0⟩
      (Color.rgba8 1 2 3 4) = none ∧
    (8 ≤ (List.replicate (n := 8) (0 : Nat)).length →
      ImageData.transform ⟨List.replicate 8 0, 1, 1, .Rgba16F⟩ (fun _ color => color) = none ∧
      ImageData.premultiply ⟨List.replicate 8 0, 1, 1, .Rgba16F⟩ = none) :=
  c9_rgba16f_operations_fatal ⟨List.replicate 8 0, 1, 1, .Rgba16F⟩ ⟨0, 0⟩
    (Color.rgba8 1 2 3 4) (fun _ color => color) rfl

/-- Counterexample to C9 as stated: a 0x0 `Rgba16F` buffer is constructible
via `from_data`, and `transform`/`premultiply` on it return successfully (the
chunk loop never runs) instead of failing. -/
theorem c9_counterexample :
    ImageData.from_data 0 0 .Rgba16F [] = .ok ⟨[], 0, 0, .Rgba16F⟩ ∧
    ImageData.transform ⟨[], 0, 0, .Rgba16F⟩ (fun _ color => color) =
      some ⟨[], 0, 0, .Rgba16F⟩ ∧
    ImageData.premultiply ⟨[], 0, 0, .Rgba16F⟩ = some ⟨[], 0, 0, .Rgba16F⟩ := by
  refine ⟨rfl, rfl, rfl⟩

/-- Claim C7: decoding any pixel of an `R8` buffer yields green = 0, blue = 0,
alpha = 255; of an `Rg8` buffer, blue = 0 and alpha = 255 — regardless of the
stored bytes. -/
theorem c7_default_channels (img : ImageData) (p : Vec2) (c : Color) :
    (img.format = .R8 → img.get_pixel_color p = some c →
      c.g = 0 ∧ c.b = 0 ∧ c.a = 255) ∧
    (img.format = .Rg8 → img.get_pixel_color p = some c →
      c.b = 0 ∧ c.a = 255) := by
  constructor <;> intro hf h <;> unfold ImageData.get_pixel_color at h <;>
    simp only [hf] at h <;> split at h <;> cases h <;> simp [Color.rgba8]

/-- Witness for C7 on concrete 1x1 `R8` and `Rg8` buffers. -/
theorem c7_default_channels_witness :
    ((⟨[7], 1, 1, .R8⟩ : ImageData).format = .R8 →
      (⟨[7], 1, 1, .R8⟩ : ImageData).get_pixel_color ⟨0, 0⟩ =
        some (Color.rgba8 7 0 0 255) →
      (Color.rgba8 7 0 0 255).g = 0 ∧ (Color.rgba8 7 0 0 255).b = 0 ∧
        (Color.rgba8 7 0 0 255).a = 255) ∧
    ((⟨[7, 9], 1, 1, .Rg8⟩ : ImageData).format = .Rg8 →
      (⟨[7, 9], 1, 1, .Rg8⟩ : ImageData).get_pixel_color ⟨0, 0⟩ =
        some (Color.rgba8 7 9 0 255) →
      (Color.rgba8 7 9 0 255).b = 0 ∧ (Color.rgba8 7 9 0 255).a = 255) :=
  ⟨fun h1 h2 =>
      (c7_default_channels ⟨[7], 1, 1, .R8⟩ ⟨0, 0⟩ (Color.rgba8 7 0 0 255)).1 h1 h2,
    fun h1 h2 =>
      (c7_default_channels ⟨[7, 9], 1, 1, .Rg8⟩ ⟨0, 0⟩ (Color.rgba8 7 9 0 255)).2 h1 h2⟩

/-- The rounding the claim's parenthetical describes, following the spec's
words: division by 255 rounded to the nearest integer (half away from zero). -/
def specRoundNearestDiv255 (n : Nat) : Nat := (n + 128) / 255

/-- Counterexample to C6 as stated: on the pixel `red = 0x00, green = 0x66,
blue = 0xCC, alpha = 0x66`, the code (and the claim's own reference table)
produces green byte `0x28 = 0x66 * 0x66 / 255` by truncating division, while
round-to-nearest division would give `0x29`; so the rounding is not
round-to-nearest. -/
theorem c6_counterexample :
    ImageData.premultiply ⟨[0x00, 0x66, 0xCC, 0x66], 1, 1, .Rgba8⟩ =
      some ⟨[0x00, 0x28, 0x51, 0x66], 1, 1, .Rgba8⟩ ∧
    specRoundNearestDiv255 (0x66 * 0x66) = 0x29 ∧ (0x29 : Nat) ≠ 0x28 := by
  refine ⟨rfl, by decide, by decide⟩

theorem encodeTrim_toBytes_length {format : TextureFormat} (c : Color)
    (hfmt : format ≠ .Rgba16F) :
    (encodeTrim format c.toBytes).length = format.stride := by
  cases format <;> first | rfl | exact absurd rfl hfmt

theorem transformBody_eq (img : ImageData) (f : Vec2 → Color → Color) (i : Nat)
    (hfmt : img.format ≠ .Rgba16F) :
    transformBody img f i = some (encodeTrim img.format
      ((f ⟨((i % img.width : Nat) : Int), ((i / img.width : Nat) : Int)⟩
        (decodeChunk ((img.data.drop (i * img.format.stride)).take
          img.format.stride))).toBytes)) := by
  unfold transformBody
  cases himg : img.format <;> simp [himg, encodeTrim]
  exact absurd himg hfmt

theorem transform_eq_map (img : ImageData) (f : Vec2 → Color → Color)
    (hfmt : img.format ≠ .Rgba16F) :
    img.transform f = some { img with data :=
      (((List.range (img.data.length / img.format.stride)).map (fun i =>
        encodeTrim img.format
          ((f ⟨((i % img.width : Nat) : Int), ((i / img.width : Nat) : Int)⟩
            (decodeChunk ((img.data.drop (i * img.format.stride)).take
              img.format.stride))).toBytes))).flatten ++
      img.data.drop ((img.data.length / img.format.stride) * img.format.stride)) } := by
  simp only [ImageData.transform]
  rw [optionMapM_eq_map (fun i _ => transformBody_eq img f i hfmt)]
  rfl

theorem transformBody_some_length {img : ImageData} {f : Vec2 → Color → Color}
    {i : Nat} {b : List Nat} (h : transformBody img f i = some b) :
    b.length = img.format.stride := by
  unfold transformBody at h
  cases himg : img.format <;> rw [himg] at h <;> cases h <;>
    simp [Color.toBytes, himg, TextureFormat.stride]

theorem flatten_length_const {l : List (List Nat)} {s : Nat}
    (h : ∀ b ∈ l, b.length = s) : l.flatten.length = l.length * s := by
  induction l with
  | nil => simp
  | cons b bs ih =>
    simp only [List.flatten_cons, List.length_append, List.length_cons,
      h b (List.mem_cons_self b bs),
      ih (fun x hx => h x (List.mem_cons_of_mem b hx))]
    ring

theorem transform_some_shape {img : ImageData} {f : Vec2 → Color → Color}
    {out : ImageData} (h : img.transform f = some out) :
    out.data.length = img.data.length ∧ out.width = img.width ∧
    out.height = img.height ∧ out.format = img.format := by
  simp only [ImageData.transform] at h
  rcases hb : optionMapM (transformBody img f)
      (List.range (img.data.length / img.format.stride)) with _ | l
  · rw [hb] at h; cases h
  · rw [hb] at h
    simp only [Option.bind_eq_bind, Option.some_bind, Option.pure_def,
      Option.some_inj] at h
    subst h
    have hlen : l.length = img.data.length / img.format.stride := by
      rw [optionMapM_length hb, List.length_range]
    have hmem : ∀ b ∈ l, b.length = img.format.stride := by
      intro b hbmem
      obtain ⟨i, _, hi⟩ := optionMapM_mem hb b hbmem
      exact transformBody_some_length hi
    have hle : img.data.length / img.format.stride * img.format.stride ≤
        img.data.length := Nat.div_mul_le_self _ _
    refine ⟨?_, rfl, rfl, rfl⟩
    simp only [List.length_append, flatten_length_const hmem, hlen, List.length_drop]
    omega

theorem set_pixel_some {img : ImageData} {p : Vec2} {c : Color} {out : ImageData}
    (h : img.set_pixel_color p c = some out) :
    img.format ≠ .Rgba16F ∧
    out = { img with data := (writeBytes img.data
      ((usizeOfInt p.x + usizeOfInt p.y * img.width) * img.format.stride)
      (encodeTrim img.format c.toBytes)) } ∧
    (usizeOfInt p.x + usizeOfInt p.y * img.width) * img.format.stride +
      img.format.stride ≤ img.data.length := by
  have hs := TextureFormat.stride_pos img.format
  simp only [ImageData.set_pixel_color] at h
  split at h
  case isFalse => cases h
  case isTrue hlt =>
    cases himg : img.format <;> rw [himg] at h hlt hs <;> cases h <;>
      exact ⟨by simp [himg], rfl, by omega⟩

theorem regionRow_some_length {img : ImageData} {region_x region_width scan_y : Nat}
    {row : List Nat} (h : regionRow img region_x region_width scan_y = some row) :
    row.length = region_width * img.format.stride := by
  simp only [regionRow] at h
  split at h
  case isFalse => cases h
  case isTrue hle =>
    cases h
    simp only [List.length_take, List.length_drop]
    omega

theorem region_some_shape {img : ImageData} {r : Rectangle} {out : ImageData}
    (h : img.region r = some out) :
    out.width = usizeOfInt r.width ∧ out.height = usizeOfInt r.height ∧
    out.format = img.format ∧
    out.data.length = usizeOfInt r.width * usizeOfInt r.height *
      img.format.stride := by
  simp only [ImageData.region] at h
  split at h
  case isFalse => cases h
  case isTrue hin =>
    rcases hb : optionMapM (regionRow img (usizeOfInt r.x) (usizeOfInt r.width))
        (List.range' (usizeOfInt r.y) (usizeOfInt r.height)) with _ | rows
    · rw [hb] at h; cases h
    · rw [hb] at h
      simp only [Option.bind_eq_bind, Option.some_bind, Option.pure_def,
        Option.some_inj] at h
      subst h
      have hlen : rows.length = usizeOfInt r.height := by
        rw [optionMapM_length hb, List.length_range']
      have hmem : ∀ b ∈ rows, b.length = usizeOfInt r.width * img.format.stride := by
        intro b hbmem
        obtain ⟨sy, _, hsy⟩ := optionMapM_mem hb b hbmem
        exact regionRow_some_length hsy
      refine ⟨rfl, rfl, rfl, ?_⟩
      simp only [flatten_length_const hmem, hlen]
      ring

/-- Counterexample to C1 as stated: with release (wrapping) `usize`
arithmetic, `from_data(-1, -1, R8, [5])` casts both dimensions to
`2^64 - 1`, wraps `expected` to `1`, and returns a buffer whose data length
`1` differs from `width * height * stride = (2^64 - 1)^2` — the invariant is
violated (a debug build would panic on the overflow instead of returning). -/
theorem c1_counterexample :
    ImageData.from_data (-1) (-1) .R8 [5] =
      .ok ⟨[5], U64 - 1, U64 - 1, .R8⟩ ∧
    ¬ (ImageData.mk [5] (U64 - 1) (U64 - 1) .R8).sizeInvariant := by
  constructor
  · rfl
  · decide

/-- Claim C1 (amended): the stride invariant
`data.length = width * height * stride` holds for every buffer produced by
the file and memory decode constructors (`new`/`from_encoded`, via the
codec's `RGBA8` output), by `from_data` whenever the `usize` product
`width * height * stride` does not wrap, and by `region`, and it is preserved
by `set_pixel_color`, `transform` and `premultiply`. The no-wrap restriction
on `from_data` is forced by `c1_counterexample`. -/
theorem c1_stride_invariant :
    (∀ image : DecodedImage, (ImageData.new image).sizeInvariant) ∧
    (∀ image : DecodedImage, (ImageData.from_encoded image).sizeInvariant) ∧
    (∀ (width height : Int) (format : TextureFormat) (data : List Nat)
        (img : ImageData),
      usizeOfInt width * usizeOfInt height * format.stride < U64 →
      ImageData.from_data width height format data = .ok img →
        img.sizeInvariant) ∧
    (∀ (img : ImageData) (r : Rectangle) (out : ImageData),
      img.region r = some out → out.sizeInvariant) ∧
    (∀ (img : ImageData) (p : Vec2) (c : Color) (out : ImageData),
      img.sizeInvariant → img.set_pixel_color p c = some out →
        out.sizeInvariant) ∧
    (∀ (img : ImageData) (f : Vec2 → Color → Color) (out : ImageData),
      img.sizeInvariant → img.transform f = some out → out.sizeInvariant) ∧
    (∀ (img : ImageData) (out : ImageData),
      img.sizeInvariant → img.premultiply = some out → out.sizeInvariant) := by
  have htrans : ∀ (img : ImageData) (f : Vec2 → Color → Color) (out : ImageData),
      img.sizeInvariant → img.transform f = some out → out.sizeInvariant := by
    intro img f out hinv h
    obtain ⟨hl, hw, hh, hf⟩ := transform_some_shape h
    unfold ImageData.sizeInvariant at hinv ⊢
    rw [hl, hw, hh, hf, hinv]
  refine ⟨?_, ?_, ?_, ?_, ?_, htrans,
    fun img out hinv h => htrans img _ out hinv h⟩
  · intro image
    exact image.size_eq
  · intro image
    exact image.size_eq
  · intro width height format data img hlt h
    simp only [ImageData.from_data] at h
    rw [usizeMul_stride_eq format hlt] at h
    split at h
    case isTrue => cases h
    case isFalse hge =>
      cases h
      unfold ImageData.sizeInvariant
      simp only [List.length_take]
      omega
  · intro img r out h
    obtain ⟨hw, hh, hf, hl⟩ := region_some_shape h
    unfold ImageData.sizeInvariant
    rw [hl, hw, hh, hf]
  · intro img p c out hinv h
    obtain ⟨hfmt, hout, hle⟩ := set_pixel_some h
    subst hout
    unfold ImageData.sizeInvariant at hinv ⊢
    simp only
    rw [writeBytes_length (by rw [encodeTrim_toBytes_length c hfmt]; omega), hinv]

/-- Witness for C1 on concrete buffers: a file decode, a memory decode, a
`from_data` construction with a non-wrapping size, a region copy and a pixel
write. -/
theorem c1_stride_invariant_witness :
    (ImageData.new ⟨1, 1, [1, 2, 3, 4], rfl⟩).sizeInvariant ∧
    (ImageData.from_encoded ⟨1, 1, [9, 8, 7, 6], rfl⟩).sizeInvariant ∧
    (ImageData.mk [0, 1, 2, 3, 4, 5, 6, 7, 8, 9, 10, 11, 12, 13, 14, 15]
      2 2 .Rgba8).sizeInvariant ∧
    (ImageData.mk [0, 1, 2, 3, 8, 9, 10, 11] 1 2 .Rgba8).sizeInvariant ∧
    (ImageData.mk [9, 9, 9, 9, 4, 5, 6, 7, 8, 9, 10, 11, 12, 13, 14, 15]
      2 2 .Rgba8).sizeInvariant := by
  refine ⟨c1_stride_invariant.1 ⟨1, 1, [1, 2, 3, 4], rfl⟩,
    c1_stride_invariant.2.1 ⟨1, 1, [9, 8, 7, 6], rfl⟩,
    c1_stride_invariant.2.2.1 2 2 .Rgba8
      [0, 1, 2, 3, 4, 5, 6, 7, 8, 9, 10, 11, 12, 13, 14, 15] _
      (by decide) rfl,
    c1_stride_invariant.2.2.2.1 (ImageData.mk
      [0, 1, 2, 3, 4, 5, 6, 7, 8, 9, 10, 11, 12, 13, 14, 15] 2 2 .Rgba8)
      ⟨0, 0, 1, 2⟩ _ rfl,
    c1_stride_invariant.2.2.2.2.1 (ImageData.mk
      [0, 1, 2, 3, 4, 5, 6, 7, 8, 9, 10, 11, 12, 13, 14, 15] 2 2 .Rgba8)
      ⟨0, 0⟩ (Color.rgba8 9 9 9 9) _ (by decide) rfl⟩

/-- Claim C2: on the 2x2 `Rgba8` test buffer the four sub-regions slice the
expected bytes, and in general an in-bounds `region` call returns a fresh
buffer of the requested size and format whose row `scan_y` is exactly the
`region.width * stride` source bytes starting at offset
`(region.x + scan_y * source.width) * stride`. -/
theorem c2_region_decomposition :
    (ImageData.region
        ⟨[0x00, 0x01, 0x02, 0x03, 0x04, 0x05, 0x06, 0x07,
          0x08, 0x09, 0x0A, 0x0B, 0x0C, 0x0D, 0x0E, 0x0F], 2, 2, .Rgba8⟩
        ⟨0, 0, 1, 2⟩ =
      some ⟨[0x00, 0x01, 0x02, 0x03, 0x08, 0x09, 0x0A, 0x0B], 1, 2, .Rgba8⟩) ∧
    (ImageData.region
        ⟨[0x00, 0x01, 0x02, 0x03, 0x04, 0x05, 0x06, 0x07,
          0x08, 0x09, 0x0A, 0x0B, 0x0C, 0x0D, 0x0E, 0x0F], 2, 2, .Rgba8⟩
        ⟨1, 0, 1, 2⟩ =
      some ⟨[0x04, 0x05, 0x06, 0x07, 0x0C, 0x0D, 0x0E, 0x0F], 1, 2, .Rgba8⟩) ∧
    (ImageData.region
        ⟨[0x00, 0x01, 0x02, 0x03, 0x04, 0x05, 0x06, 0x07,
          0x08, 0x09, 0x0A, 0x0B, 0x0C, 0x0D, 0x0E, 0x0F], 2, 2, .Rgba8⟩
        ⟨0, 0, 2, 1⟩ =
      some ⟨[0x00, 0x01, 0x02, 0x03, 0x04, 0x05, 0x06, 0x07], 2, 1, .Rgba8⟩) ∧
    (ImageData.region
        ⟨[0x00, 0x01, 0x02, 0x03, 0x04, 0x05, 0x06, 0x07,
          0x08, 0x09, 0x0A, 0x0B, 0x0C, 0x0D, 0x0E, 0x0F], 2, 2, .Rgba8⟩
        ⟨0, 1, 2, 1⟩ =
      some ⟨[0x08, 0x09, 0x0A, 0x0B, 0x0C, 0x0D, 0x0E, 0x0F], 2, 1, .Rgba8⟩) ∧
    (∀ (img : ImageData) (r : Rectangle),
      img.sizeInvariant → img.width < U64 → img.height < U64 →
      0 ≤ r.x → 0 ≤ r.y → 0 ≤ r.width → 0 ≤ r.height →
      r.x + r.width ≤ (img.width : Int) → r.y + r.height ≤ (img.height : Int) →
      img.region r = some
        { data := (((List.range' r.y.toNat r.height.toNat).map (fun scan_y =>
            (img.data.drop ((r.x.toNat + scan_y * img.width) *
              img.format.stride)).take
              (r.width.toNat * img.format.stride))).flatten),
          width := r.width.toNat, height := r.height.toNat,
          format := img.format }) := by
  refine ⟨rfl, rfl, rfl, rfl, ?_⟩
  intro img r hinv hwU hhU hx0 hy0 hw0 hh0 hxw hyh
  have hux : usizeOfInt r.x = r.x.toNat := usizeOfInt_toNat hx0 (by omega)
  have huy : usizeOfInt r.y = r.y.toNat := usizeOfInt_toNat hy0 (by omega)
  have huw : usizeOfInt r.width = r.width.toNat := usizeOfInt_toNat hw0 (by omega)
  have huh : usizeOfInt r.height = r.height.toNat := usizeOfInt_toNat hh0 (by omega)
  have hxwN : r.x.toNat + r.width.toNat ≤ img.width := by omega
  have hyhN : r.y.toNat + r.height.toNat ≤ img.height := by omega
  have hrows : ∀ scan_y ∈ List.range' r.y.toNat r.height.toNat,
      regionRow img r.x.toNat r.width.toNat scan_y = some
        ((img.data.drop ((r.x.toNat + scan_y * img.width) *
          img.format.stride)).take (r.width.toNat * img.format.stride)) := by
    intro scan_y hmem
    rw [List.mem_range'_1] at hmem
    have hsy : scan_y + 1 ≤ img.height := by omega
    have hbound : (r.x.toNat + scan_y * img.width) * img.format.stride +
        r.width.toNat * img.format.stride ≤ img.data.length := by
      rw [hinv]
      calc (r.x.toNat + scan_y * img.width) * img.format.stride +
          r.width.toNat * img.format.stride
          = (r.x.toNat + r.width.toNat + scan_y * img.width) *
            img.format.stride := by ring
        _ ≤ (img.width + scan_y * img.width) * img.format.stride :=
            Nat.mul_le_mul_right _ (by omega)
        _ = (scan_y + 1) * img.width * img.format.stride := by ring
        _ ≤ img.height * img.width * img.format.stride :=
            Nat.mul_le_mul_right _ (Nat.mul_le_mul_right _ hsy)
        _ = img.width * img.height * img.format.stride := by ring
    simp only [regionRow, if_pos hbound]
    rfl
  have hcond : 0 ≤ r.x ∧ 0 ≤ r.y ∧ r.x + r.width ≤ (img.width : Int) ∧
      r.y + r.height ≤ (img.height : Int) := ⟨hx0, hy0, hxw, hyh⟩
  simp only [ImageData.region, hux, huy, huw, huh]
  rw [if_pos hcond, optionMapM_eq_map hrows]
  rfl

/-- Witness for C2's general row-copy law, instantiated at the right-column
region of the 2x2 `Rgba8` test buffer. -/
theorem c2_region_decomposition_witness :
    ImageData.region
      ⟨[0x00, 0x01, 0x02, 0x03, 0x04, 0x05, 0x06, 0x07,
        0x08, 0x09, 0x0A, 0x0B, 0x0C, 0x0D, 0x0E, 0x0F], 2, 2, .Rgba8⟩
      ⟨1, 0, 1, 2⟩ =
      some ⟨[0x04, 0x05, 0x06, 0x07, 0x0C, 0x0D, 0x0E, 0x0F], 1, 2, .Rgba8⟩ := by
  obtain ⟨-, -, -, -, h5⟩ := c2_region_decomposition
  have h := h5
    ⟨[0x00, 0x01, 0x02, 0x03, 0x04, 0x05, 0x06, 0x07,
      0x08, 0x09, 0x0A, 0x0B, 0x0C, 0x0D, 0x0E, 0x0F], 2, 2, .Rgba8⟩
    ⟨1, 0, 1, 2⟩ (by decide) (by norm_num [U64]) (by norm_num [U64])
    (by norm_num) (by norm_num) (by norm_num) (by norm_num)
    (by norm_num) (by norm_num)
  exact h.trans (by rfl)

theorem writeBytes_getD_self {data bs : List Nat} {idx : Nat}
    (h : idx ≤ data.length) (hbs : 0 < bs.length) :
    (writeBytes data idx bs).getD idx 0 = bs.getD 0 0 := by
  have := writeBytes_getD (j := 0) h hbs
  simpa using this

/-- Claim C8: for every implemented format and in-bounds position, writing a
representable color and reading it back returns the color with the channels
the format does not store normalized (missing colors 0, missing alpha 255);
the write changes only the bytes the format defines and preserves the buffer
length, dimensions and format. -/
theorem c8_set_get_roundtrip (img : ImageData) (x y : Int) (c : Color)
    (hfmt : img.format ≠ .Rgba16F) (hinv : img.sizeInvariant)
    (hx0 : 0 ≤ x) (hxw : x < (img.width : Int))
    (hy0 : 0 ≤ y) (hyh : y < (img.height : Int))
    (hwU : img.width < U64) (hhU : img.height < U64)
    (hcr : c.r < 256) (hcg : c.g < 256) (hcb : c.b < 256) (hca : c.a < 256) :
    ∃ out, img.set_pixel_color ⟨x, y⟩ c = some out ∧
      out.get_pixel_color ⟨x, y⟩ = some (normalizeColor img.format c) ∧
      out.width = img.width ∧ out.height = img.height ∧
      out.format = img.format ∧
      out.data.length = img.data.length ∧
      out.data.take ((x.toNat + y.toNat * img.width) * img.format.stride) =
        img.data.take ((x.toNat + y.toNat * img.width) * img.format.stride) ∧
      out.data.drop ((x.toNat + y.toNat * img.width) * img.format.stride +
          (encodeTrim img.format c.toBytes).length) =
        img.data.drop ((x.toNat + y.toNat * img.width) * img.format.stride +
          (encodeTrim img.format c.toBytes).length) := by
  have hs1 := TextureFormat.stride_pos img.format
  have hux : usizeOfInt x = x.toNat := usizeOfInt_toNat hx0 (by omega)
  have huy : usizeOfInt y = y.toNat := usizeOfInt_toNat hy0 (by omega)
  have hpix : (x.toNat + y.toNat * img.width) + 1 ≤ img.width * img.height := by
    calc x.toNat + y.toNat * img.width + 1
        ≤ img.width + y.toNat * img.width := by omega
      _ = (y.toNat + 1) * img.width := by ring
      _ ≤ img.height * img.width := Nat.mul_le_mul_right _ (by omega)
      _ = img.width * img.height := Nat.mul_comm _ _
  have hidx : (x.toNat + y.toNat * img.width) * img.format.stride +
      img.format.stride ≤ img.data.length := by
    rw [hinv]
    calc (x.toNat + y.toNat * img.width) * img.format.stride + img.format.stride
        = (x.toNat + y.toNat * img.width + 1) * img.format.stride := by ring
      _ ≤ img.width * img.height * img.format.stride :=
          Nat.mul_le_mul_right _ hpix
  have hassert : (x.toNat + y.toNat * img.width) * img.format.stride +
      img.format.stride - 1 < img.data.length := by omega
  have hle : (x.toNat + y.toNat * img.width) * img.format.stride ≤
      img.data.length := by omega
  have hbslen : (encodeTrim img.format c.toBytes).length = img.format.stride :=
    encodeTrim_toBytes_length c hfmt
  have hwble : (x.toNat + y.toNat * img.width) * img.format.stride +
      (encodeTrim img.format c.toBytes).length ≤ img.data.length := by
    rw [hbslen]; exact hidx
  refine ⟨{ img with data := (writeBytes img.data
      ((x.toNat + y.toNat * img.width) * img.format.stride)
      (encodeTrim img.format c.toBytes)) }, ?_, ?_, rfl, rfl, rfl,
    writeBytes_length hwble, writeBytes_take hle, writeBytes_drop hle⟩
  · simp only [ImageData.set_pixel_color, hux, huy]
    rw [if_pos hassert]
    split
    case h_1 heq => rw [heq]; rfl
    case h_2 heq => rw [heq]; rfl
    case h_3 heq => rw [heq]; rfl
    case h_4 heq => exact absurd heq hfmt
  · have hlenout : (writeBytes img.data
        ((x.toNat + y.toNat * img.width) * img.format.stride)
        (encodeTrim img.format c.toBytes)).length = img.data.length :=
      writeBytes_length hwble
    simp only [ImageData.get_pixel_color, hux, huy]
    rw [hlenout, if_pos hassert]
    split
    case h_1 heq =>
      rw [writeBytes_getD_self hle (by rw [hbslen, heq]; decide),
        writeBytes_getD (j := 1) hle (by rw [hbslen, heq]; decide),
        writeBytes_getD (j := 2) hle (by rw [hbslen, heq]; decide),
        writeBytes_getD (j := 3) hle (by rw [hbslen, heq]; decide), heq]
      simp [encodeTrim, Color.toBytes, normalizeColor, Color.rgba8,
        Nat.mod_eq_of_lt hcr, Nat.mod_eq_of_lt hcg,
        Nat.mod_eq_of_lt hcb, Nat.mod_eq_of_lt hca]
    case h_2 heq =>
      rw [writeBytes_getD_self hle (by rw [hbslen, heq]; decide), heq]
      simp [encodeTrim, Color.toBytes, normalizeColor, Color.rgba8,
        Nat.mod_eq_of_lt hcr]
    case h_3 heq =>
      rw [writeBytes_getD_self hle (by rw [hbslen, heq]; decide),
        writeBytes_getD (j := 1) hle (by rw [hbslen, heq]; decide), heq]
      simp [encodeTrim, Color.toBytes, normalizeColor, Color.rgba8,
        Nat.mod_eq_of_lt hcr, Nat.mod_eq_of_lt hcg]
    case h_4 heq => exact absurd heq hfmt

/-- Witness for C8: write `(10, 20, 30, 40)` into a 1x1 `R8` buffer; only red
survives and the readback normalizes the rest. -/
theorem c8_set_get_roundtrip_witness :
    ∃ out, ImageData.set_pixel_color ⟨[0], 1, 1, .R8⟩ ⟨0, 0⟩ ⟨10, 20, 30, 40⟩ =
        some out ∧
      out.get_pixel_color ⟨0, 0⟩ =
        some (normalizeColor (ImageData.mk [0] 1 1 .R8).format ⟨10, 20, 30, 40⟩) ∧
      out.width = 1 ∧ out.height = 1 ∧ out.format = .R8 ∧
      out.data.length = ([0] : List Nat).length ∧
      out.data.take 0 = ([0] : List Nat).take 0 ∧
      out.data.drop (0 + (encodeTrim .R8 (Color.toBytes ⟨10, 20, 30, 40⟩)).length) =
        ([0] : List Nat).drop
          (0 + (encodeTrim .R8 (Color.toBytes ⟨10, 20, 30, 40⟩)).length) :=
  c8_set_get_roundtrip ⟨[0], 1, 1, .R8⟩ 0 0 ⟨10, 20, 30, 40⟩ (by decide)
    (by decide) (by decide) (by decide) (by decide) (by decide)
    (by norm_num [U64]) (by norm_num [U64]) (by decide) (by decide)
    (by decide) (by decide)


/-- The per-pixel byte action of premultiplication on an `RGBA8` buffer:
every 4-byte pixel `r g b a` becomes `r*a/255, g*a/255, b*a/255, a` with
truncating division. -/
def premultBytes : List Nat → List Nat
  | r :: g :: b :: a :: rest =>
      r * a / 255 :: g * a / 255 :: b * a / 255 :: a :: premultBytes rest
  | rest => rest

theorem premult_chunks (n : Nat) : ∀ (data : List Nat), data.length = 4 * n →
    (∀ b ∈ data, b < 256) →
    ((List.range n).map (fun i =>
      (Color.to_premultiplied (decodeChunk
        ((data.drop (i * 4)).take 4))).toBytes)).flatten = premultBytes data := by
  induction n with
  | zero =>
    intro data hlen _
    have hnil : data = [] := List.length_eq_zero.mp (by omega)
    subst hnil
    rfl
  | succ n ih =>
    intro data hlen hbytes
    rcases data with _ | ⟨b0, _ | ⟨b1, _ | ⟨b2, _ | ⟨b3, rest⟩⟩⟩⟩ <;>
      simp only [List.length_nil, List.length_cons] at hlen <;> try omega
    have hb0 : b0 < 256 := hbytes b0 (by simp)
    have hb1 : b1 < 256 := hbytes b1 (by simp)
    have hb2 : b2 < 256 := hbytes b2 (by simp)
    have hb3 : b3 < 256 := hbytes b3 (by simp)
    have hdle : ∀ u : Nat, u < 256 → u * b3 / 255 < 256 := by
      intro u hu
      have h1 : u * b3 ≤ 255 * 255 := Nat.mul_le_mul (by omega) (by omega)
      have h2 := Nat.div_le_div_right (c := 255) h1
      omega
    rw [List.range_succ_eq_map, List.map_cons, List.flatten_cons, List.map_map]
    have hshift : List.map ((fun i =>
        (Color.to_premultiplied (decodeChunk
          (((b0 :: b1 :: b2 :: b3 :: rest).drop (i * 4)).take 4))).toBytes) ∘
        Nat.succ) (List.range n) =
        List.map (fun i =>
          (Color.to_premultiplied (decodeChunk
            ((rest.drop (i * 4)).take 4))).toBytes) (List.range n) := by
      refine List.map_congr_left (fun i _ => ?_)
      simp only [Function.comp_apply]
      rw [show Nat.succ i * 4 = i * 4 + 1 + 1 + 1 + 1 from by omega,
        List.drop_succ_cons, List.drop_succ_cons, List.drop_succ_cons,
        List.drop_succ_cons]
    rw [hshift, ih rest (by omega) (fun x hx => hbytes x (by simp [hx]))]
    show (Color.to_premultiplied (Color.rgba8 b0 b1 b2 b3)).toBytes ++
      premultBytes rest = premultBytes (b0 :: b1 :: b2 :: b3 :: rest)
    simp only [Color.rgba8, Color.to_premultiplied, Color.toBytes, premultBytes,
      Nat.mod_eq_of_lt hb0, Nat.mod_eq_of_lt hb1, Nat.mod_eq_of_lt hb2,
      Nat.mod_eq_of_lt hb3, Nat.mod_eq_of_lt (hdle b0 hb0),
      Nat.mod_eq_of_lt (hdle b1 hb1), Nat.mod_eq_of_lt (hdle b2 hb2),
      List.cons_append, List.nil_append]

/-- Claim C6 (amended): on an `Rgba8` buffer of byte values, `premultiply`
maps every pixel `(r, g, b, a)` to `(r*a/255, g*a/255, b*a/255, a)` with
truncating integer division — matching the reference table — and leaves the
alpha byte of every pixel unchanged. -/
theorem c6_premultiply_floor (img : ImageData) (hfmt : img.format = .Rgba8)
    (hinv : img.sizeInvariant) (hbytes : ∀ b ∈ img.data, b < 256) :
    img.premultiply = some { img with data := premultBytes img.data } := by
  have hne : img.format ≠ .Rgba16F := by rw [hfmt]; decide
  have hstride : img.format.stride = 4 := by rw [hfmt]; rfl
  have hlen4 : img.data.length = 4 * (img.data.length / 4) := by
    rw [hinv, hstride]
    have h44 : img.width * img.height * 4 / 4 = img.width * img.height :=
      Nat.mul_div_cancel _ (by norm_num)
    rw [h44]
    ring
  simp only [ImageData.premultiply]
  rw [transform_eq_map img _ hne]
  simp only [hfmt, TextureFormat.stride, encodeTrim]
  rw [premult_chunks (img.data.length / 4) img.data hlen4 hbytes,
    List.drop_eq_nil_of_le (by omega)]
  simp

/-- Witness for C6 (amended) on the 2x2 buffer from the reference table:
alphas `0x00/0x66/0xCC/0xFF` against channels `00 66 CC`. -/
theorem c6_premultiply_floor_witness :
    ImageData.premultiply
      ⟨[0x00, 0x66, 0xCC, 0x00, 0x00, 0x66, 0xCC, 0x66,
        0x00, 0x66, 0xCC, 0xCC, 0x00, 0x66, 0xCC, 0xFF], 2, 2, .Rgba8⟩ =
      some ⟨[0x00, 0x00, 0x00, 0x00, 0x00, 0x28, 0x51, 0x66,
             0x00, 0x51, 0xA3, 0xCC, 0x00, 0x66, 0xCC, 0xFF], 2, 2, .Rgba8⟩ := by
  have h := c6_premultiply_floor
    ⟨[0x00, 0x66, 0xCC, 0x00, 0x00, 0x66, 0xCC, 0x66,
      0x00, 0x66, 0xCC, 0xCC, 0x00, 0x66, 0xCC, 0xFF], 2, 2, .Rgba8⟩
    rfl (by decide) (by decide)
  exact h.trans (by rfl)

theorem getD_drop_take {data : List Nat} {m s j : Nat} (d : Nat) (hj : j < s)
    (hlen : m + s ≤ data.length) :
    ((data.drop m).take s).getD j d = data.getD (m + j) 0 := by
  have hml : m + j < data.length := by omega
  rw [List.getD_eq_getElem?_getD, List.getElem?_take, if_pos hj,
    List.getElem?_drop, List.getElem?_eq_getElem hml,
    List.getD_eq_getElem?_getD, List.getElem?_eq_getElem hml]
  rfl

theorem getD_drop_take_default {data : List Nat} {m s j : Nat} (d : Nat)
    (hj : s ≤ j) : ((data.drop m).take s).getD j d = d :=
  List.getD_eq_default _ _
    (by simp only [List.length_take, List.length_drop]; omega)

/-- Reading the pixel at flat chunk index `k` (position
`(k % width, k / width)`) of a valid buffer yields exactly the color
`transform` decodes from chunk `k`. -/
theorem get_pixel_at_chunk (img : ImageData) (k : Nat)
    (hfmt : img.format ≠ .Rgba16F) (hinv : img.sizeInvariant)
    (hk : k < img.width * img.height)
    (hwU : img.width < U64) (hhU : img.height < U64) :
    img.get_pixel_color ⟨((k % img.width : Nat) : Int),
      ((k / img.width : Nat) : Int)⟩ =
      some (decodeChunk ((img.data.drop (k * img.format.stride)).take
        img.format.stride)) := by
  have hs1 := TextureFormat.stride_pos img.format
  have hw0 : 0 < img.width := by
    rcases Nat.eq_zero_or_pos img.width with h | h
    · rw [h] at hk; omega
    · exact h
  have hux : usizeOfInt ((k % img.width : Nat) : Int) = k % img.width :=
    usizeOfInt_natCast (by have := Nat.mod_lt k hw0; omega)
  have hdivh : k / img.width < img.height :=
    (Nat.div_lt_iff_lt_mul hw0).2 (by rw [Nat.mul_comm]; exact hk)
  have huy : usizeOfInt ((k / img.width : Nat) : Int) = k / img.width :=
    usizeOfInt_natCast (by omega)
  have hpk : k % img.width + k / img.width * img.width = k :=
    Nat.mod_add_div' k img.width
  have hidx : k * img.format.stride + img.format.stride ≤ img.data.length := by
    rw [hinv]
    calc k * img.format.stride + img.format.stride
        = (k + 1) * img.format.stride := by ring
      _ ≤ img.width * img.height * img.format.stride :=
          Nat.mul_le_mul_right _ (by omega)
  have hassert : k * img.format.stride + img.format.stride - 1 <
      img.data.length := by omega
  simp only [ImageData.get_pixel_color, hux, huy, hpk]
  rw [if_pos hassert]
  split
  case h_1 heq =>
    rw [heq] at hidx ⊢
    simp only [decodeChunk, TextureFormat.stride] at hidx ⊢
    rw [getD_drop_take 0 (show (0 : Nat) < 4 by decide) hidx,
      getD_drop_take 0 (show (1 : Nat) < 4 by decide) hidx,
      getD_drop_take 0 (show (2 : Nat) < 4 by decide) hidx,
      getD_drop_take 255 (show (3 : Nat) < 4 by decide) hidx]
    simp
  case h_2 heq =>
    rw [heq] at hidx ⊢
    simp only [decodeChunk, TextureFormat.stride] at hidx ⊢
    rw [getD_drop_take 0 (show (0 : Nat) < 1 by decide) hidx,
      getD_drop_take_default 0 (show (1 : Nat) ≤ 1 by decide),
      getD_drop_take_default 0 (show (1 : Nat) ≤ 2 by decide),
      getD_drop_take_default 255 (show (1 : Nat) ≤ 3 by decide)]
    simp
  case h_3 heq =>
    rw [heq] at hidx ⊢
    simp only [decodeChunk, TextureFormat.stride] at hidx ⊢
    rw [getD_drop_take 0 (show (0 : Nat) < 2 by decide) hidx,
      getD_drop_take 0 (show (1 : Nat) < 2 by decide) hidx,
      getD_drop_take_default 0 (show (2 : Nat) ≤ 2 by decide),
      getD_drop_take_default 255 (show (2 : Nat) ≤ 3 by decide)]
    simp
  case h_4 heq => exact absurd heq hfmt

/-- Writing a color at flat chunk index `k` of a valid buffer splices the
format-trimmed byte encoding into chunk `k`. -/
theorem set_pixel_at_chunk (img : ImageData) (k : Nat) (c : Color)
    (hfmt : img.format ≠ .Rgba16F) (hinv : img.sizeInvariant)
    (hk : k < img.width * img.height)
    (hwU : img.width < U64) (hhU : img.height < U64) :
    img.set_pixel_color ⟨((k % img.width : Nat) : Int),
      ((k / img.width : Nat) : Int)⟩ c =
      some { img with data := (writeBytes img.data (k * img.format.stride)
        (encodeTrim img.format c.toBytes)) } := by
  have hs1 := TextureFormat.stride_pos img.format
  have hw0 : 0 < img.width := by
    rcases Nat.eq_zero_or_pos img.width with h | h
    · rw [h] at hk; omega
    · exact h
  have hux : usizeOfInt ((k % img.width : Nat) : Int) = k % img.width :=
    usizeOfInt_natCast (by have := Nat.mod_lt k hw0; omega)
  have hdivh : k / img.width < img.height :=
    (Nat.div_lt_iff_lt_mul hw0).2 (by rw [Nat.mul_comm]; exact hk)
  have huy : usizeOfInt ((k / img.width : Nat) : Int) = k / img.width :=
    usizeOfInt_natCast (by omega)
  have hpk : k % img.width + k / img.width * img.width = k :=
    Nat.mod_add_div' k img.width
  have hidx : k * img.format.stride + img.format.stride ≤ img.data.length := by
    rw [hinv]
    calc k * img.format.stride + img.format.stride
        = (k + 1) * img.format.stride := by ring
      _ ≤ img.width * img.height * img.format.stride :=
          Nat.mul_le_mul_right _ (by omega)
  have hassert : k * img.format.stride + img.format.stride - 1 <
      img.data.length := by omega
  simp only [ImageData.set_pixel_color, hux, huy, hpk]
  rw [if_pos hassert]
  split
  case h_1 heq => rw [heq]; rfl
  case h_2 heq => rw [heq]; rfl
  case h_3 heq => rw [heq]; rfl
  case h_4 heq => exact absurd heq hfmt

/-- Row-major enumeration of all pixel coordinates (`y` outer, `x` inner), as
the spec's reference semantics for `transform` prescribes. -/
def rowMajorCoords (w h : Nat) : List (Nat × Nat) :=
  (List.range h).flatMap (fun y => (List.range w).map (fun x => (x, y)))

/-- The reference pixel-by-pixel loop: for each coordinate in the given
order, `get_pixel_color`, apply `f`, `set_pixel_color`; a panic in either
call aborts the loop. -/
def setGetLoop (f : Vec2 → Color → Color) :
    List (Nat × Nat) → ImageData → Option ImageData
  | [], img => some img
  | p :: ps, img => do
    let c ← img.get_pixel_color ⟨(p.1 : Int), (p.2 : Int)⟩
    let img2 ← img.set_pixel_color ⟨(p.1 : Int), (p.2 : Int)⟩
      (f ⟨(p.1 : Int), (p.2 : Int)⟩ c)
    setGetLoop f ps img2

/-- The byte output `transform` writes for chunk `i`. -/
def chunkOut (img : ImageData) (f : Vec2 → Color → Color) (i : Nat) : List Nat :=
  encodeTrim img.format
    ((f ⟨((i % img.width : Nat) : Int), ((i / img.width : Nat) : Int)⟩
      (decodeChunk ((img.data.drop (i * img.format.stride)).take
        img.format.stride))).toBytes)

theorem transformBody_eq_chunkOut (img : ImageData) (f : Vec2 → Color → Color)
    (i : Nat) (hfmt : img.format ≠ .Rgba16F) :
    transformBody img f i = some (chunkOut img f i) :=
  transformBody_eq img f i hfmt

theorem transform_eq_chunkOut (img : ImageData) (f : Vec2 → Color → Color)
    (hfmt : img.format ≠ .Rgba16F) :
    img.transform f = some { img with data :=
      (((List.range (img.data.length / img.format.stride)).map
        (chunkOut img f)).flatten ++
      img.data.drop ((img.data.length / img.format.stride) *
        img.format.stride)) } := by
  simp only [ImageData.transform]
  rw [optionMapM_eq_map (fun i _ => transformBody_eq_chunkOut img f i hfmt)]
  rfl

theorem rowMajorCoords_eq (w h : Nat) :
    rowMajorCoords w h = (List.range (w * h)).map (fun i => (i % w, i / w)) := by
  rcases Nat.eq_zero_or_pos w with hw | hw
  · subst hw
    simp [rowMajorCoords]
  · induction h with
    | zero => simp [rowMajorCoords]
    | succ h ih =>
      have hstep : rowMajorCoords w (h + 1) =
          rowMajorCoords w h ++ (List.range w).map (fun x => (x, h)) := by
        simp [rowMajorCoords, List.range_succ]
      rw [hstep, ih, Nat.mul_succ, List.range_add, List.map_append]
      congr 1
      rw [List.map_map]
      refine List.map_congr_left (fun x hx => ?_)
      rw [List.mem_range] at hx
      simp only [Function.comp_apply]
      rw [Prod.mk.injEq]
      constructor
      · rw [Nat.mul_add_mod, Nat.mod_eq_of_lt hx]
      · rw [Nat.mul_add_div hw, Nat.div_eq_of_lt hx, Nat.add_zero]

theorem setGetLoop_sweep (img : ImageData) (f : Vec2 → Color → Color)
    (hfmt : img.format ≠ .Rgba16F) (hinv : img.sizeInvariant)
    (hwU : img.width < U64) (hhU : img.height < U64) :
    ∀ (m k : Nat) (pre : List Nat), pre.length = k * img.format.stride →
      k + m = img.width * img.height →
      setGetLoop f
        ((List.range' k m).map (fun i => (i % img.width, i / img.width)))
        { img with data := (pre ++ img.data.drop (k * img.format.stride)) } =
      some { img with data :=
        (pre ++ ((List.range' k m).map (chunkOut img f)).flatten) } := by
  intro m
  induction m with
  | zero =>
    intro k pre hpre hk
    have hkwh : k = img.width * img.height := by omega
    have hdrop : img.data.drop (k * img.format.stride) = [] :=
      List.drop_eq_nil_of_le (le_of_eq (by rw [hinv, hkwh]))
    simp [setGetLoop, hdrop]
  | succ m ih =>
    intro k pre hpre hk
    have hs1 := TextureFormat.stride_pos img.format
    have hkwh : k < img.width * img.height := by omega
    have hksle : k * img.format.stride + img.format.stride ≤
        img.data.length := by
      rw [hinv]
      calc k * img.format.stride + img.format.stride
          = (k + 1) * img.format.stride := by ring
        _ ≤ img.width * img.height * img.format.stride :=
            Nat.mul_le_mul_right _ (by omega)
    have hcurinv : ImageData.sizeInvariant
        { img with data := (pre ++ img.data.drop (k * img.format.stride)) } := by
      unfold ImageData.sizeInvariant
      simp only [List.length_append, List.length_drop, hpre]
      have h2 : k * img.format.stride +
          (img.data.length - k * img.format.stride) = img.data.length := by
        omega
      rw [h2, hinv]
    have hget := get_pixel_at_chunk
      { img with data := (pre ++ img.data.drop (k * img.format.stride)) } k
      hfmt hcurinv hkwh hwU hhU
    have hset := set_pixel_at_chunk
      { img with data := (pre ++ img.data.drop (k * img.format.stride)) } k
      (f ⟨((k % img.width : Nat) : Int), ((k / img.width : Nat) : Int)⟩
        (decodeChunk ((img.data.drop (k * img.format.stride)).take
          img.format.stride)))
      hfmt hcurinv hkwh hwU hhU
    have hdropcur : (pre ++ img.data.drop (k * img.format.stride)).drop
        (k * img.format.stride) = img.data.drop (k * img.format.stride) := by
      rw [← hpre, List.drop_left]
    dsimp only at hget hset
    rw [hdropcur] at hget
    have hbs : (encodeTrim img.format
        ((f ⟨((k % img.width : Nat) : Int), ((k / img.width : Nat) : Int)⟩
          (decodeChunk ((img.data.drop (k * img.format.stride)).take
            img.format.stride))).toBytes)).length = img.format.stride :=
      encodeTrim_toBytes_length _ hfmt
    have hW : writeBytes (pre ++ img.data.drop (k * img.format.stride))
        (k * img.format.stride)
        (encodeTrim img.format
          ((f ⟨((k % img.width : Nat) : Int), ((k / img.width : Nat) : Int)⟩
            (decodeChunk ((img.data.drop (k * img.format.stride)).take
              img.format.stride))).toBytes)) =
        (pre ++ chunkOut img f k) ++
          img.data.drop ((k + 1) * img.format.stride) := by
      unfold writeBytes
      rw [show (pre ++ img.data.drop (k * img.format.stride)).take
          (k * img.format.stride) = pre from by rw [← hpre, List.take_left]]
      rw [hbs]
      have hd : (pre ++ img.data.drop (k * img.format.stride)).drop
          (k * img.format.stride + img.format.stride) =
          img.data.drop ((k + 1) * img.format.stride) := by
        rw [← hpre, List.drop_append_eq_append_drop,
          List.drop_eq_nil_of_le (by omega), List.nil_append, List.drop_drop]
        congr 1
        rw [hpre]
        ring_nf
        omega
      rw [hd]
      simp only [List.append_assoc]
      rfl
    have hpre2 : ((pre ++ chunkOut img f k) : List Nat).length =
        (k + 1) * img.format.stride := by
      rw [List.length_append, hpre,
        show (chunkOut img f k).length = img.format.stride from
          encodeTrim_toBytes_length _ hfmt]
      ring
    rw [List.range'_succ, List.map_cons]
    simp only [setGetLoop]
    rw [hget]
    simp only [Option.bind_eq_bind, Option.some_bind]
    rw [hset]
    simp only [Option.some_bind]
    rw [hW, ih (k + 1) (pre ++ chunkOut img f k) hpre2 (by omega),
      List.map_cons, List.flatten_cons]
    simp only [List.append_assoc]

/-- Claim C3: for every implemented format, `transform f` produces exactly the
buffer obtained by running `set_pixel(x, y, f((x,y), get_pixel(x, y)))` over
every coordinate in row-major order (`y` outer, `x` inner). -/
theorem c3_transform_equiv (img : ImageData) (f : Vec2 → Color → Color)
    (hfmt : img.format ≠ .Rgba16F) (hinv : img.sizeInvariant)
    (hwU : img.width < U64) (hhU : img.height < U64) :
    img.transform f = setGetLoop f (rowMajorCoords img.width img.height) img := by
  have hs1 := TextureFormat.stride_pos img.format
  have hn : img.data.length / img.format.stride = img.width * img.height := by
    rw [hinv, Nat.mul_div_cancel _ hs1]
  have hdrop : img.data.drop (img.width * img.height * img.format.stride) = [] :=
    List.drop_eq_nil_of_le (le_of_eq hinv)
  have hsweep := setGetLoop_sweep img f hfmt hinv hwU hhU
    (img.width * img.height) 0 [] (by simp) (by omega)
  rw [← List.range_eq_range'] at hsweep
  simp only [Nat.zero_mul, List.drop_zero, List.nil_append] at hsweep
  have h2 : setGetLoop f
      ((List.range (img.width * img.height)).map
        (fun i => (i % img.width, i / img.width))) img =
      some { img with data :=
        ((List.range (img.width * img.height)).map (chunkOut img f)).flatten } :=
    hsweep
  rw [transform_eq_chunkOut img f hfmt, rowMajorCoords_eq, hn, hdrop,
    List.append_nil, h2]

/-- Witness for C3 on a 2x2 `R8` buffer with the increment callback from the
repository's `transform_r8` test. -/
theorem c3_transform_equiv_witness :
    ImageData.transform ⟨[0x00, 0x04, 0x08, 0x0C], 2, 2, .R8⟩
      (fun _ c => Color.rgba8 (c.r + 1) (c.g + 1) (c.b + 1) (c.a + 1)) =
    setGetLoop (fun _ c => Color.rgba8 (c.r + 1) (c.g + 1) (c.b + 1) (c.a + 1))
      (rowMajorCoords 2 2) ⟨[0x00, 0x04, 0x08, 0x0C], 2, 2, .R8⟩ :=
  c3_transform_equiv ⟨[0x00, 0x04, 0x08, 0x0C], 2, 2, .R8⟩
    (fun _ c => Color.rgba8 (c.r + 1) (c.g + 1) (c.b + 1) (c.a + 1))
    (by decide) (by decide) (by norm_num [U64]) (by norm_num [U64])
